import Mathlib

/-!
Shallow embedding of `src/InteractiveBackend.py` (a Flask backend whose only
stateful route is `POST /api/save-config`, function `save_config`, lines 29-42)
together with the module-level initialisation (lines 11-15).

Modelling conventions:
  * Parsed JSON request bodies are modelled by `PyVal`; an unparseable body is
    `Option.none` (Flask's `request.json` raises an exception there, which the
    handler's `except` clause converts to an HTTP 500 response).
  * JSON numbers are modelled as integers (`pyInt`); the claims never exercise
    floating-point formatting.
  * The `csv` module's writer (excel dialect: delimiter `,`, quote char `"`,
    minimal quoting, line terminator CRLF) is modelled character-exactly, and
    the `utf-8-sig` encoding is modelled by a leading U+FEFF character.
  * File-system effects are explicit: `save_config` returns the new file
    content (`none` when the file was not opened), and `step` threads a
    `ServerState` (directory existence plus current file content) through
    requests.  The boolean `canOpen` models whether `open(SAVE_PATH, "w")`
    succeeds (directory present and destination writable).
-/

/-- Python values that a parsed JSON body can contain: strings, numbers
(modelled as integers), booleans, `None`, lists and dicts. -/
inductive PyVal where
  | pyStr (s : String)
  | pyInt (n : Int)
  | pyBool (b : Bool)
  | pyNone
  | pyList (xs : List PyVal)
  | pyDict (fields : List (String × PyVal))

/-- The apostrophe character, used by Python `repr` of strings. -/
def squote : Char := Char.ofNat 39

/-- Escape of one character inside a Python string repr with quote `q`. -/
def pyEscChar (q : Char) (c : Char) : String :=
  if c = '\\' then "\\\\"
  else if c = q then "\\" ++ String.singleton q
  else if c = '\n' then "\\n"
  else if c = '\r' then "\\r"
  else if c = '\t' then "\\t"
  else String.singleton c

/-- Python `repr` of a string (single quotes, switching to double quotes when
the string contains an apostrophe but no double quote), modelled for
printable characters. -/
def pyStrRepr (s : String) : String :=
  let q := if s.contains squote && !(s.contains '\"') then '\"' else squote
  String.singleton q ++ String.join (s.data.map (pyEscChar q)) ++ String.singleton q

mutual

/-- Python `repr` of a value (what `str` produces for containers). -/
def pyRepr : PyVal → String
  | .pyStr s => pyStrRepr s
  | .pyInt n => toString n
  | .pyBool b => if b then "True" else "False"
  | .pyNone => "None"
  | .pyList xs => "[" ++ String.intercalate ", " (pyReprList xs) ++ "]"
  | .pyDict fs => "\x7b" ++ String.intercalate ", " (pyReprFields fs) ++ "\x7d"

/-- `repr` of each element of a list. -/
def pyReprList : List PyVal → List String
  | [] => []
  | x :: xs => pyRepr x :: pyReprList xs

/-- `repr` of each `key: value` entry of a dict. -/
def pyReprFields : List (String × PyVal) → List String
  | [] => []
  | (k, v) :: fs => (pyStrRepr k ++ ": " ++ pyRepr v) :: pyReprFields fs

end

/-- The string the `csv` writer puts in a cell for a given Python value:
strings are written as-is, `None` becomes the empty string, any other value is
converted with `str`. -/
def pyFieldStr : PyVal → String
  | .pyStr s => s
  | .pyNone => ""
  | v => pyRepr v

/-! ### The csv writer (excel dialect, QUOTE_MINIMAL), character-level -/

/-- Characters that force the csv writer to quote a field: the delimiter,
the quote character, and line-break characters. -/
def csvSpecial (c : Char) : Bool :=
  c = ',' || c = '\"' || c = '\r' || c = '\n'

/-- Double every quote character (the csv escaping inside a quoted field). -/
def escQChars : List Char → List Char
  | [] => []
  | c :: cs => if c = '\"' then '\"' :: '\"' :: escQChars cs else c :: escQChars cs

/-- One written cell: quoted (with doubled quotes) exactly when the field
contains a special character. -/
def fieldChars (f : List Char) : List Char :=
  if f.any csvSpecial then '\"' :: (escQChars f ++ ['\"']) else f

/-- The cells of a row joined with the `,` delimiter. -/
def joinFields : List (List Char) → List Char
  | [] => []
  | [f] => fieldChars f
  | f :: fs => fieldChars f ++ ',' :: joinFields fs

/-- The characters of a row before the line terminator; a row holding a
single empty field is written as `""` (the csv writer quotes it so the row is
distinguishable from an empty row). -/
def rowBodyChars (r : List (List Char)) : List Char :=
  if r = [[]] then ['\"', '\"'] else joinFields r

/-- A full written row: body plus the CRLF terminator. -/
def rowChars (r : List (List Char)) : List Char :=
  rowBodyChars r ++ ['\r', '\n']

/-- The byte-order mark that the `utf-8-sig` encoding prepends. -/
def bomChar : Char := Char.ofNat 0xFEFF

/-- Content of the file written for the given rows (header row included by
the caller): BOM followed by each row in order. -/
def fileChars (rows : List (List (List Char))) : List Char :=
  bomChar :: (rows.map rowChars).flatten

/-- String-level wrapper: the file content for a list of rows of cells. -/
def renderFile (rows : List (List String)) : String :=
  String.mk (fileChars (rows.map (fun r => r.map String.data)))

/-- The fixed header row `['Panel', 'Parameter', 'Value']` written first
(line 34 of the source). -/
def headerFields : List String := ["Panel", "Parameter", "Value"]

/-! ### Exceptions, responses, and the handler -/

/-- The save folder, `SwapDatas` (line 11). -/
def SAVE_FOLDER : String := "SwapDatas"

/-- The destination path, `os.path.join(SAVE_FOLDER, 'InputDatas.csv')`
(line 12, POSIX separator). -/
def SAVE_PATH : String := SAVE_FOLDER ++ "/" ++ "InputDatas.csv"

/-- Exceptions the handler can catch: `KeyError` (missing dict key),
`TypeError` (non-iterable body or non-subscriptable item), the framework
exception raised when the body is not valid JSON, and the OS error when the
destination cannot be opened for writing. -/
inductive PyExn where
  | keyError (k : String)
  | typeError (msg : String)
  | badRequest
  | ioError
deriving DecidableEq

/-- `str(e)` for each modelled exception (KeyError prints the repr of the
missing key; messages of the other exceptions are modelled). -/
def PyExn.str : PyExn → String
  | .keyError k => pyStrRepr k
  | .typeError m => m
  | .badRequest => "400 Bad Request: failed to decode JSON object"
  | .ioError => "[Errno 2] No such file or directory: " ++ pyStrRepr SAVE_PATH

/-- An HTTP response: status code, the `status` field and the `message`
field of the JSON body produced by `jsonify`. -/
structure HttpResponse where
  code : Nat
  status : String
  message : String
deriving DecidableEq

/-- `item[k]` for a Python value: dict lookup raising `KeyError` when the
key is absent; indexing a string or list with a string key raises
`TypeError`; other values are not subscriptable. -/
def pyGetItem : PyVal → String → Except PyExn PyVal
  | .pyDict fs, k =>
    match fs.lookup k with
    | some v => .ok v
    | none => .error (.keyError k)
  | .pyStr _, _ => .error (.typeError "string indices must be integers")
  | .pyList _, _ => .error (.typeError "list indices must be integers or slices, not str")
  | .pyInt _, _ => .error (.typeError "int object is not subscriptable")
  | .pyBool _, _ => .error (.typeError "bool object is not subscriptable")
  | .pyNone, _ => .error (.typeError "NoneType object is not subscriptable")

/-- `for item in data`: lists iterate their elements, dicts their keys,
strings their characters; numbers, booleans and `None` are not iterable. -/
def pyIterate : PyVal → Except PyExn (List PyVal)
  | .pyList xs => .ok xs
  | .pyDict fs => .ok (fs.map fun kv => .pyStr kv.1)
  | .pyStr s => .ok (s.data.map fun c => .pyStr (String.singleton c))
  | .pyInt _ => .error (.typeError "int object is not iterable")
  | .pyBool _ => .error (.typeError "bool object is not iterable")
  | .pyNone => .error (.typeError "NoneType object is not iterable")

/-- `[item['panel'], item['parameter'], item['value']]` (line 36): the three
cells of one data row, or the first exception raised. -/
def tripleOf (item : PyVal) : Except PyExn (List String) :=
  match pyGetItem item "panel" with
  | .error e => .error e
  | .ok p =>
    match pyGetItem item "parameter" with
    | .error e => .error e
    | .ok q =>
      match pyGetItem item "value" with
      | .error e => .error e
      | .ok v => .ok [pyFieldStr p, pyFieldStr q, pyFieldStr v]

/-- The write loop (lines 35-36): rows actually written before the first
exception (if any), together with that exception. -/
def processItems : List PyVal → List (List String) × Option PyExn
  | [] => ([], none)
  | it :: rest =>
    match tripleOf it with
    | .error e => ([], some e)
    | .ok row =>
      let out := processItems rest
      (row :: out.1, out.2)

/-- Outcome of one handler invocation: the HTTP response and, when the file
was opened (hence truncated and rewritten), its new content. -/
structure SaveOutcome where
  response : HttpResponse
  written : Option String
deriving DecidableEq

/-- The `save_config` handler (lines 29-42).  `body` is the parsed JSON body
(`none` when `request.json` raises); `canOpen` tells whether
`open(SAVE_PATH, 'w')` succeeds.  The header row is written before the loop,
so iteration and key errors leave a truncated file containing the header and
the rows processed so far; `jsonify` answers 200 on success and the
`except` clause answers 500 with `str(e)`. -/
def save_config (body : Option PyVal) (canOpen : Bool) : SaveOutcome :=
  match body with
  | none => ⟨⟨500, "error", PyExn.str .badRequest⟩, none⟩
  | some data =>
    if canOpen then
      match pyIterate data with
      | .error e => ⟨⟨500, "error", e.str⟩, some (renderFile [headerFields])⟩
      | .ok items =>
        let out := processItems items
        match out.2 with
        | none =>
          ⟨⟨200, "success", "Saved to " ++ SAVE_PATH⟩,
            some (renderFile (headerFields :: out.1))⟩
        | some e => ⟨⟨500, "error", e.str⟩, some (renderFile (headerFields :: out.1))⟩
    else ⟨⟨500, "error", PyExn.str .ioError⟩, none⟩

/-! ### Server state across requests -/

/-- Persistent world state: whether `SAVE_FOLDER` exists and the current
content of `SAVE_PATH` (`none` when the file does not exist). -/
structure ServerState where
  dirExists : Bool
  file : Option String
deriving DecidableEq

/-- Module-level initialisation (lines 14-15): create the save folder if it
is absent.  Runs once at process start, not per request. -/
def startup (st : ServerState) : ServerState :=
  ⟨true, st.file⟩

/-- One request to `/api/save-config`: the handler runs with the file
openable iff the directory exists and the destination is writable; a write
replaces the file content, otherwise the file is untouched. -/
def step (st : ServerState) (body : Option PyVal) (writable : Bool) :
    HttpResponse × ServerState :=
  let out := save_config body (st.dirExists && writable)
  (out.response,
    ⟨st.dirExists, match out.written with | some s => some s | none => st.file⟩)

/-- A sequence of requests, threaded through the state. -/
def runAll (st : ServerState) : List (Option PyVal × Bool) → ServerState
  | [] => st
  | (b, w) :: rest => runAll (step st b w).2 rest

/-- A body item is well formed when it is a dict containing all three keys
`panel`, `parameter`, `value`. -/
def itemWellFormed : PyVal → Bool
  | .pyDict fs =>
    (fs.lookup "panel").isSome && (fs.lookup "parameter").isSome &&
      (fs.lookup "value").isSome
  | _ => false

/-- The data row written for a well-formed item (junk value on ill-formed
items, which never reach the writer). -/
def rowOf (it : PyVal) : List String :=
  match tripleOf it with
  | .ok r => r
  | .error _ => []

/-! ### A standard csv reader (excel dialect), to state round-trip claims -/

/-- Read the inside of a quoted cell: a doubled quote stands for one quote
character, a single quote closes the cell.  Returns the cell content and the
remaining input after the closing quote. -/
def parseQuotedF : List Char → List Char × List Char
  | [] => ([], [])
  | c :: rest =>
    if c = '\"' then
      match rest with
      | [] => ([], [])
      | c2 :: rest2 =>
        if c2 = '\"' then ('\"' :: (parseQuotedF rest2).1, (parseQuotedF rest2).2)
        else ([], rest)
    else (c :: (parseQuotedF rest).1, (parseQuotedF rest).2)

/-- Read an unquoted cell: everything up to a delimiter or line break, which
is left in the remaining input. -/
def parseUnquotedF : List Char → List Char × List Char
  | [] => ([], [])
  | c :: rest =>
    if c = ',' || c = '\r' || c = '\n' then ([], c :: rest)
    else (c :: (parseUnquotedF rest).1, (parseUnquotedF rest).2)

/-- Read one cell: quoted when the input starts with a quote character. -/
def parseFieldF (cs : List Char) : List Char × List Char :=
  match cs with
  | [] => ([], [])
  | c :: rest => if c = '\"' then parseQuotedF rest else parseUnquotedF (c :: rest)

/-- Read one record: cells separated by `,`, ended by CRLF, a lone line
break, or end of input.  Fuel bounds the number of cells. -/
def parseRecordFuel : Nat → List Char → List String × List Char
  | 0, cs => ([], cs)
  | fuel + 1, cs =>
    match (parseFieldF cs).2 with
    | [] => ([String.mk (parseFieldF cs).1], [])
    | c :: r =>
      if c = ',' then
        (String.mk (parseFieldF cs).1 :: (parseRecordFuel fuel r).1, (parseRecordFuel fuel r).2)
      else if c = '\r' then
        match r with
        | [] => ([String.mk (parseFieldF cs).1], [])
        | c2 :: r2 =>
          if c2 = '\n' then ([String.mk (parseFieldF cs).1], r2)
          else ([String.mk (parseFieldF cs).1], c2 :: r2)
      else if c = '\n' then ([String.mk (parseFieldF cs).1], r)
      else ([String.mk (parseFieldF cs).1], c :: r)

/-- Read all records until the input is exhausted. -/
def parseRowsFuel : Nat → List Char → List (List String)
  | 0, _ => []
  | _ + 1, [] => []
  | fuel + 1, c :: cs =>
    (parseRecordFuel (fuel + 1) (c :: cs)).1 ::
      parseRowsFuel fuel (parseRecordFuel (fuel + 1) (c :: cs)).2

/-- Parse a csv document (enough fuel for its own length). -/
def parseCSV (s : String) : List (List String) :=
  parseRowsFuel (s.data.length + 1) s.data

/-- Drop a leading byte-order mark, as reading the file back with the
`utf-8-sig` codec does. -/
def stripBOM (s : String) : String :=
  match s.data with
  | c :: rest => if c = bomChar then String.mk rest else s
  | [] => s

/-! ### Physical lines of a file -/

/-- Split a character list at every newline character. -/
def splitNl : List Char → List (List Char)
  | [] => [[]]
  | c :: rest =>
    if c = '\n' then [] :: splitNl rest
    else
      match splitNl rest with
      | [] => [[c]]
      | l :: ls => (c :: l) :: ls

/-- Drop one trailing carriage return, so that CRLF counts as one line end. -/
def stripCr : List Char → List Char
  | [] => []
  | c :: rest =>
    match rest with
    | [] => if c = '\r' then [] else [c]
    | c2 :: rest2 => c :: stripCr (c2 :: rest2)

/-- The physical lines of a text: newline-separated segments, each with a
trailing carriage return removed, and no empty final line when the text ends
with a line terminator (as `str.splitlines` counts lines). -/
def linesOf (s : String) : List String :=
  (if (splitNl s.data).getLast? = some [] then (splitNl s.data).dropLast
   else splitNl s.data).map fun l => String.mk (stripCr l)

/-- The physical line holding a given data row (its body without the CRLF
terminator). -/
def dataLine (it : PyVal) : String :=
  String.mk (rowBodyChars ((rowOf it).map String.data))

/-! ### The failure condition, as the code has it and as claim C2 words it -/

/-- Follows the words of claim C2: the listed failure causes are a body that
is not deserializable as JSON, an object of the array missing one of the
three keys, and an I/O error. -/
def claimedFailB (body : Option PyVal) (canOpen : Bool) : Bool :=
  body.isNone ||
  (match body with
   | some (.pyList items) =>
     items.any fun it =>
       match it with
       | .pyDict fs =>
         (fs.lookup "panel").isNone || (fs.lookup "parameter").isNone ||
           (fs.lookup "value").isNone
       | _ => false
   | _ => false) ||
  !canOpen

/-- The condition under which the handler actually answers 500: unparseable
body, unopenable destination, an array element that is not a dict with the
three keys, a non-empty dict or string body (their elements are not
subscriptable by a string key), or a number, boolean or null body (not
iterable). -/
def errorCondB (body : Option PyVal) (canOpen : Bool) : Bool :=
  match body with
  | none => true
  | some data =>
    !canOpen ||
    match data with
    | .pyList items => items.any fun it => !(itemWellFormed it)
    | .pyDict fs => !(fs.isEmpty)
    | .pyStr s => !(s.data.isEmpty)
    | _ => true

/-! ### Round-trip lemmas: the reader inverts the writer -/

theorem string_mk_data (s : String) : String.mk s.data = s := rfl

/-- Characters that may legitimately follow a cell: none (end of input), the
delimiter, or a line break. -/
def stopChar (c : Char) : Bool := c = ',' || c = '\r' || c = '\n'

/-- The remaining input may follow a cell. -/
def stopsOk : List Char → Bool
  | [] => true
  | c :: _ => stopChar c

theorem stopChar_cases {c : Char} (h : stopChar c = true) : c = ',' ∨ c = '\r' ∨ c = '\n' := by
  unfold stopChar at h
  simp only [Bool.or_eq_true, decide_eq_true_eq] at h
  tauto

theorem stopChar_ne_quote {c : Char} (h : stopChar c = true) : ¬ c = '\"' := by
  intro hc
  subst hc
  exact absurd h (by decide)

theorem csvSpecial_parts {c : Char} (h : csvSpecial c = false) :
    ¬ c = ',' ∧ ¬ c = '\"' ∧ ¬ c = '\r' ∧ ¬ c = '\n' := by
  unfold csvSpecial at h
  simp only [Bool.or_eq_false_iff, decide_eq_false_iff_not] at h
  tauto

theorem parseUnquoted_exact (f : List Char) (hf : ∀ c ∈ f, csvSpecial c = false)
    (rest : List Char) (hr : stopsOk rest = true) :
    parseUnquotedF (f ++ rest) = (f, rest) := by
  induction f with
  | nil =>
    cases rest with
    | nil => rfl
    | cons c r =>
      rcases stopChar_cases (c := c) hr with h | h | h <;> subst h <;>
        simp [parseUnquotedF]
  | cons c f2 ih =>
    obtain ⟨h1, _, h3, h4⟩ := csvSpecial_parts (hf c (by simp))
    have ih2 := ih (fun d hd => hf d (List.mem_cons_of_mem c hd))
    simp [parseUnquotedF, h1, h3, h4, List.append_eq, ih2]

theorem parseQuoted_exact (f : List Char) (rest : List Char) (hr : stopsOk rest = true) :
    parseQuotedF (escQChars f ++ '\"' :: rest) = (f, rest) := by
  induction f with
  | nil =>
    simp only [escQChars, List.nil_append]
    cases rest with
    | nil => rfl
    | cons c2 r2 =>
      have h2 : ¬ c2 = '\"' := stopChar_ne_quote hr
      simp [parseQuotedF, h2]
  | cons c f2 ih =>
    by_cases hc : c = '\"'
    · subst hc
      simp [escQChars, parseQuotedF, List.append_eq, ih]
    · simp only [escQChars, if_neg hc, List.cons_append]
      conv_lhs => rw [parseQuotedF.eq_def]
      simp [hc, ih]

theorem parseField_exact (f : List Char) (rest : List Char) (hr : stopsOk rest = true) :
    parseFieldF (fieldChars f ++ rest) = (f, rest) := by
  by_cases hq : f.any csvSpecial = true
  · have hfc : fieldChars f = '\"' :: (escQChars f ++ ['\"']) := by
      simp [fieldChars, hq]
    have hsplit : ('\"' :: (escQChars f ++ ['\"'])) ++ rest =
        '\"' :: (escQChars f ++ '\"' :: rest) := by simp
    rw [hfc, hsplit]
    simp only [parseFieldF, if_pos rfl]
    exact parseQuoted_exact f rest hr
  · have hq2 : f.any csvSpecial = false := by simpa using hq
    have hall : ∀ c ∈ f, csvSpecial c = false := by
      intro c hc
      simpa using List.any_eq_false.mp hq2 c hc
    have hfc : fieldChars f = f := by simp [fieldChars, hq2]
    rw [hfc]
    cases f with
    | nil =>
      cases rest with
      | nil => rfl
      | cons c r =>
        have hcq : ¬ c = '\"' := stopChar_ne_quote hr
        simp only [List.nil_append, parseFieldF, if_neg hcq]
        rcases stopChar_cases (c := c) hr with h | h | h <;> subst h <;>
          simp [parseUnquotedF]
    | cons c f2 =>
      have hcq : ¬ c = '\"' := (csvSpecial_parts (hall c (by simp))).2.1
      simp only [List.cons_append, parseFieldF, if_neg hcq]
      exact parseUnquoted_exact (c :: f2) hall rest hr

theorem parseRecord_join (f : List Char) (fs : List (List Char)) :
    ∀ fuel, fs.length + 1 ≤ fuel → ∀ rest,
    parseRecordFuel fuel (joinFields (f :: fs) ++ '\r' :: '\n' :: rest) =
      ((f :: fs).map String.mk, rest) := by
  induction fs generalizing f with
  | nil =>
    intro fuel hfuel rest
    obtain ⟨k, rfl⟩ : ∃ k, fuel = k + 1 := by
      cases fuel with
      | zero => omega
      | succ k => exact ⟨k, rfl⟩
    have hfe := parseField_exact f ('\r' :: '\n' :: rest) rfl
    have hj : joinFields [f] = fieldChars f := rfl
    rw [hj]
    conv_lhs => rw [parseRecordFuel.eq_def]
    simp [hfe]
  | cons f2 fs2 ih =>
    intro fuel hfuel rest
    obtain ⟨k, rfl⟩ : ∃ k, fuel = k + 1 := by
      cases fuel with
      | zero => omega
      | succ k => exact ⟨k, rfl⟩
    have hassoc : joinFields (f :: f2 :: fs2) ++ '\r' :: '\n' :: rest =
        fieldChars f ++ (',' :: (joinFields (f2 :: fs2) ++ '\r' :: '\n' :: rest)) := by
      have : joinFields (f :: f2 :: fs2) = fieldChars f ++ ',' :: joinFields (f2 :: fs2) := rfl
      rw [this]
      simp
    rw [hassoc]
    have hfe := parseField_exact f (',' :: (joinFields (f2 :: fs2) ++ '\r' :: '\n' :: rest)) rfl
    have ihr := ih f2 k (by simpa using Nat.lt_succ_iff.mp (Nat.lt_of_lt_of_le (Nat.lt_succ_self _) hfuel)) rest
    conv_lhs => rw [parseRecordFuel.eq_def]
    simp [hfe, ihr]

theorem parseRecord_row (r : List (List Char)) (hne : r ≠ []) (fuel : Nat)
    (hf : r.length ≤ fuel) (rest : List Char) :
    parseRecordFuel fuel (rowChars r ++ rest) = (r.map String.mk, rest) := by
  by_cases hsp : r = [[]]
  · subst hsp
    obtain ⟨k, rfl⟩ : ∃ k, fuel = k + 1 := by
      cases fuel with
      | zero => simp at hf
      | succ k => exact ⟨k, rfl⟩
    have hrw : rowChars [[]] ++ rest = '\"' :: '\"' :: '\r' :: '\n' :: rest := by
      simp [rowChars, rowBodyChars]
    rw [hrw]
    conv_lhs => rw [parseRecordFuel.eq_def]
    simp [parseFieldF, parseQuotedF]
  · cases r with
    | nil => exact absurd rfl hne
    | cons f fs =>
      have hjf : rowChars (f :: fs) ++ rest =
          joinFields (f :: fs) ++ '\r' :: '\n' :: rest := by
        simp [rowChars, rowBodyChars, hsp]
      rw [hjf]
      exact parseRecord_join f fs fuel (by simpa using hf) rest

theorem joinFields_length (r : List (List Char)) : r.length ≤ (joinFields r).length + 1 := by
  induction r with
  | nil => simp [joinFields]
  | cons f fs ih =>
    cases fs with
    | nil => simp [joinFields]
    | cons f2 fs2 =>
      have hj : joinFields (f :: f2 :: fs2) = fieldChars f ++ ',' :: joinFields (f2 :: fs2) := rfl
      rw [hj]
      simp only [List.length_append, List.length_cons]
      simp only [List.length_cons] at ih ⊢
      omega

theorem rowChars_length (r : List (List Char)) (h : r ≠ []) :
    r.length + 1 ≤ (rowChars r).length ∧ 2 ≤ (rowChars r).length := by
  by_cases hsp : r = [[]]
  · subst hsp
    constructor <;> simp [rowChars, rowBodyChars]
  · have hjl := joinFields_length r
    have hrw : rowChars r = joinFields r ++ ['\r', '\n'] := by
      simp [rowChars, rowBodyChars, hsp]
    rw [hrw]
    simp only [List.length_append, List.length_cons, List.length_nil]
    omega

theorem parseRows_join (rows : List (List (List Char))) (h : ∀ r ∈ rows, r ≠ []) :
    ∀ fuel, ((rows.map rowChars).flatten).length + 1 ≤ fuel →
    parseRowsFuel fuel ((rows.map rowChars).flatten) = rows.map (List.map String.mk) := by
  induction rows with
  | nil =>
    intro fuel _
    cases fuel with
    | zero => rfl
    | succ k => rfl
  | cons r rows2 ih =>
    intro fuel hf
    have hr : r ≠ [] := h r (by simp)
    have hlen := rowChars_length r hr
    have hflat : ((r :: rows2).map rowChars).flatten =
        rowChars r ++ (rows2.map rowChars).flatten := by simp
    rw [hflat] at hf ⊢
    rw [List.length_append] at hf
    obtain ⟨k, rfl⟩ : ∃ k, fuel = k + 1 := by
      cases fuel with
      | zero => omega
      | succ k => exact ⟨k, rfl⟩
    obtain ⟨c, cs, hc⟩ : ∃ c cs, rowChars r ++ (rows2.map rowChars).flatten = c :: cs := by
      cases hrc : rowChars r with
      | nil => rw [hrc] at hlen; simp at hlen
      | cons c cs2 => exact ⟨c, cs2 ++ (rows2.map rowChars).flatten, by simp [hrc]⟩
    rw [hc]
    conv_lhs => rw [parseRowsFuel.eq_def]
    simp only []
    rw [← hc]
    have hrec := parseRecord_row r hr (k + 1) (by omega) ((rows2.map rowChars).flatten)
    rw [hrec]
    have ihr := ih (fun r2 h2 => h r2 (List.mem_cons_of_mem r h2)) k (by omega)
    simp [ihr]

theorem parseCSV_renderFile (rows : List (List String)) (h : ∀ r ∈ rows, r ≠ []) :
    parseCSV (stripBOM (renderFile rows)) = rows := by
  have h1 : stripBOM (renderFile rows) =
      String.mk (((rows.map (fun r => r.map String.data)).map rowChars).flatten) := by
    simp [stripBOM, renderFile, fileChars]
  rw [h1]
  have hmem : ∀ r ∈ rows.map (fun r => r.map String.data), r ≠ [] := by
    intro r hr
    simp only [List.mem_map] at hr
    obtain ⟨r0, hr0, rfl⟩ := hr
    intro heq
    exact h r0 hr0 (by simpa using heq)
  have h2 := parseRows_join (rows.map (fun r => r.map String.data)) hmem
    ((((rows.map (fun r => r.map String.data)).map rowChars).flatten).length + 1) (le_refl _)
  unfold parseCSV
  rw [h2]
  simp only [List.map_map]
  have hco : (String.mk ∘ String.data) = id := by
    funext s
    exact string_mk_data s
  rw [show (List.map (List.map String.mk ∘ fun r => List.map String.data r) rows) =
      List.map (List.map (String.mk ∘ String.data)) rows by simp [List.map_map]]
  rw [hco]
  simp

/-! ### Physical-line lemmas -/

theorem splitNl_ne_nil (l : List Char) : splitNl l ≠ [] := by
  induction l with
  | nil => simp [splitNl]
  | cons c rest ih =>
    by_cases hc : c = '\n'
    · simp [splitNl, hc]
    · simp only [splitNl, if_neg hc]
      cases h : splitNl rest with
      | nil => simp
      | cons a as => simp

theorem splitNl_no_nl (s : List Char) (hs : ∀ c ∈ s, ¬ c = '\n') (rest : List Char) :
    splitNl (s ++ '\n' :: rest) = s :: splitNl rest := by
  induction s with
  | nil => simp [splitNl]
  | cons c s2 ih =>
    have hc : ¬ c = '\n' := hs c (by simp)
    have ih2 := ih (fun d hd => hs d (List.mem_cons_of_mem c hd))
    simp only [List.cons_append]
    conv_lhs => rw [splitNl.eq_def]
    simp [hc, ih2]

theorem stripCr_concat (s : List Char) : stripCr (s ++ ['\r']) = s := by
  induction s with
  | nil => rfl
  | cons c s2 ih =>
    cases s2 with
    | nil => simp [stripCr]
    | cons c2 s3 =>
      conv_lhs => rw [List.cons_append, stripCr.eq_def]
      simp only [List.cons_append]
      rw [show ((c2 :: s3) ++ ['\r'] : List Char) = c2 :: (s3 ++ ['\r']) from rfl] at ih
      simp [ih]

theorem splitNl_rows (segs : List (List Char)) (h : ∀ s ∈ segs, ∀ c ∈ s, ¬ c = '\n') :
    splitNl ((segs.map (fun s => s ++ ['\r', '\n'])).flatten) =
      segs.map (fun s => s ++ ['\r']) ++ [[]] := by
  induction segs with
  | nil => simp [splitNl]
  | cons s segs2 ih =>
    simp only [List.map_cons, List.flatten_cons]
    have hassoc : (s ++ ['\r', '\n']) ++ ((segs2.map (fun s => s ++ ['\r', '\n'])).flatten) =
        (s ++ ['\r']) ++ '\n' :: ((segs2.map (fun s => s ++ ['\r', '\n'])).flatten) := by
      simp
    rw [hassoc]
    have hnl : ∀ c ∈ s ++ ['\r'], ¬ c = '\n' := by
      intro c hc
      rcases List.mem_append.mp hc with h1 | h1
      · exact h s (by simp) c h1
      · simp only [List.mem_singleton] at h1
        subst h1
        decide
    rw [splitNl_no_nl _ hnl _]
    rw [ih (fun t ht => h t (List.mem_cons_of_mem s ht))]
    simp

theorem linesOf_renderFile (rows : List (List String))
    (h : ∀ r ∈ rows, ∀ c ∈ rowBodyChars (r.map String.data), ¬ c = '\n') :
    linesOf (stripBOM (renderFile rows)) =
      rows.map (fun r => String.mk (rowBodyChars (r.map String.data))) := by
  have h1 : stripBOM (renderFile rows) =
      String.mk (((rows.map (fun r => r.map String.data)).map rowChars).flatten) := by
    simp [stripBOM, renderFile, fileChars]
  rw [h1]
  have hmapshape : (rows.map (fun r => r.map String.data)).map rowChars =
      (rows.map (fun r => rowBodyChars (r.map String.data))).map (fun s => s ++ ['\r', '\n']) := by
    simp only [List.map_map]
    rfl
  unfold linesOf
  rw [show (String.mk (((rows.map (fun r => r.map String.data)).map rowChars).flatten)).data =
      ((rows.map (fun r => r.map String.data)).map rowChars).flatten from rfl]
  rw [hmapshape]
  have hb : ∀ s ∈ rows.map (fun r => rowBodyChars (r.map String.data)), ∀ c ∈ s, ¬ c = '\n' := by
    intro s hs
    simp only [List.mem_map] at hs
    obtain ⟨r0, hr0, rfl⟩ := hs
    exact h r0 hr0
  rw [splitNl_rows _ hb]
  rw [List.getLast?_concat, if_pos rfl, List.dropLast_concat, List.map_map, List.map_map]
  apply List.map_congr_left
  intro r _
  simp only [Function.comp]
  rw [stripCr_concat]

/-! ### The write loop: characterisation -/

theorem tripleOf_wf_ok (it : PyVal) (h : itemWellFormed it = true) :
    tripleOf it = .ok (rowOf it) := by
  cases it with
  | pyDict fs =>
    unfold itemWellFormed at h
    simp only [Bool.and_eq_true, Option.isSome_iff_exists] at h
    obtain ⟨⟨⟨p, hp⟩, q, hq⟩, v, hv⟩ := h
    have ht : tripleOf (.pyDict fs) = .ok [pyFieldStr p, pyFieldStr q, pyFieldStr v] := by
      simp [tripleOf, pyGetItem, hp, hq, hv]
    rw [ht]
    simp [rowOf, ht]
  | pyStr s => simp [itemWellFormed] at h
  | pyInt n => simp [itemWellFormed] at h
  | pyBool b => simp [itemWellFormed] at h
  | pyNone => simp [itemWellFormed] at h
  | pyList xs => simp [itemWellFormed] at h

theorem tripleOf_bad (it : PyVal) (h : itemWellFormed it = false) :
    ∃ e, tripleOf it = .error e := by
  cases it with
  | pyDict fs =>
    rcases hp : fs.lookup "panel" with _ | p
    · exact ⟨.keyError "panel", by simp [tripleOf, pyGetItem, hp]⟩
    · rcases hq : fs.lookup "parameter" with _ | q
      · exact ⟨.keyError "parameter", by simp [tripleOf, pyGetItem, hp, hq]⟩
      · rcases hv : fs.lookup "value" with _ | v
        · exact ⟨.keyError "value", by simp [tripleOf, pyGetItem, hp, hq, hv]⟩
        · exfalso
          simp [itemWellFormed, hp, hq, hv] at h
  | pyStr s => exact ⟨_, rfl⟩
  | pyInt n => exact ⟨_, rfl⟩
  | pyBool b => exact ⟨_, rfl⟩
  | pyNone => exact ⟨_, rfl⟩
  | pyList xs => exact ⟨_, rfl⟩

theorem processItems_rows (items : List PyVal) :
    (processItems items).1 = (items.takeWhile itemWellFormed).map rowOf := by
  induction items with
  | nil => rfl
  | cons it rest ih =>
    by_cases h : itemWellFormed it = true
    · have ht := tripleOf_wf_ok it h
      simp [processItems, ht, List.takeWhile_cons, h, ih]
    · have hb : itemWellFormed it = false := by simpa using h
      obtain ⟨e, he⟩ := tripleOf_bad it hb
      simp [processItems, he, List.takeWhile_cons, hb]

theorem processItems_err_none (items : List PyVal) :
    (processItems items).2 = none ↔ ∀ it ∈ items, itemWellFormed it = true := by
  induction items with
  | nil => simp [processItems]
  | cons it rest ih =>
    by_cases h : itemWellFormed it = true
    · have ht := tripleOf_wf_ok it h
      simp [processItems, ht, h, ih]
    · have hb : itemWellFormed it = false := by simpa using h
      obtain ⟨e, he⟩ := tripleOf_bad it hb
      simp only [processItems, he]
      constructor
      · intro hfalse
        exact absurd hfalse (by simp)
      · intro hall
        exact absurd (hall it (by simp)) h

theorem processItems_all (items : List PyVal) (h : ∀ it ∈ items, itemWellFormed it = true) :
    processItems items = (items.map rowOf, none) := by
  induction items with
  | nil => rfl
  | cons it rest ih =>
    have ht := tripleOf_wf_ok it (h it (by simp))
    have ih2 := ih (fun d hd => h d (List.mem_cons_of_mem it hd))
    simp [processItems, ht, ih2]

/-! ### Facts about the handler -/

theorem save_config_wf (items : List PyVal) (h : ∀ it ∈ items, itemWellFormed it = true) :
    save_config (some (.pyList items)) true =
      ⟨⟨200, "success", "Saved to " ++ SAVE_PATH⟩,
        some (renderFile (headerFields :: items.map rowOf))⟩ := by
  simp [save_config, pyIterate, processItems_all items h]

theorem save_config_code_500 (body : Option PyVal) (canOpen : Bool) :
    (save_config body canOpen).response.code = 500 ↔ errorCondB body canOpen = true := by
  cases body with
  | none => simp [save_config, errorCondB]
  | some data =>
    cases canOpen with
    | false => simp [save_config, errorCondB]
    | true =>
      cases data with
      | pyList items =>
        simp only [save_config, pyIterate, errorCondB, Bool.not_true, Bool.false_or]
        cases he : (processItems items).2 with
        | none =>
          have hall := (processItems_err_none items).mp he
          have hany : (items.any fun it => !(itemWellFormed it)) = false := by
            rw [List.any_eq_false]
            intro it hit
            simp [hall it hit]
          simp [he, hany]
        | some e =>
          have hnotall : ¬ ∀ it ∈ items, itemWellFormed it = true := by
            intro hall
            rw [(processItems_err_none items).mpr hall] at he
            exact Option.noConfusion he
          have hany : (items.any fun it => !(itemWellFormed it)) = true := by
            rw [List.any_eq_true]
            by_contra hno
            push_neg at hno
            exact hnotall (fun it hit => by
              have := hno it hit
              simpa using this)
          simp [he, hany]
      | pyDict fs =>
        cases fs with
        | nil => simp [save_config, pyIterate, processItems, errorCondB]
        | cons kv rest =>
          simp [save_config, pyIterate, processItems, tripleOf, pyGetItem, errorCondB]
      | pyStr s =>
        obtain ⟨l⟩ := s
        cases l with
        | nil => simp [save_config, pyIterate, processItems, errorCondB]
        | cons c l2 =>
          simp [save_config, pyIterate, processItems, tripleOf, pyGetItem, errorCondB]
      | pyInt n => simp [save_config, pyIterate, errorCondB]
      | pyBool b => simp [save_config, pyIterate, errorCondB]
      | pyNone => simp [save_config, pyIterate, errorCondB]

theorem save_config_dichot (body : Option PyVal) (canOpen : Bool) :
    (save_config body canOpen).response = ⟨200, "success", "Saved to " ++ SAVE_PATH⟩ ∨
    ((save_config body canOpen).response.code = 500 ∧
      (save_config body canOpen).response.status = "error") := by
  cases body with
  | none => right; simp [save_config]
  | some data =>
    cases canOpen with
    | false => right; simp [save_config]
    | true =>
      cases hit : pyIterate data with
      | error e => right; simp [save_config, hit]
      | ok items =>
        cases he : (processItems items).2 with
        | none => left; simp [save_config, hit, he]
        | some e => right; simp [save_config, hit, he]

theorem string_data_append (a b : String) : (a ++ b).data = a.data ++ b.data := rfl

theorem string_eq_of_data {a b : String} (h : a.data = b.data) : a = b := by
  cases a with
  | mk d1 =>
    cases b with
    | mk d2 =>
      simp only [] at h
      exact congrArg String.mk h

/-- Whatever the handler writes starts with the BOM and the header row. -/
theorem renderFile_hdr_pfx (rows : List (List String)) :
    ∃ t, renderFile (headerFields :: rows) = ("﻿" ++ "Panel,Parameter,Value\r\n") ++ t := by
  refine ⟨String.mk (((rows.map (fun r => r.map String.data)).map rowChars).flatten), ?_⟩
  apply string_eq_of_data
  rw [string_data_append]
  have hH : ("﻿" ++ "Panel,Parameter,Value\r\n").data =
      bomChar :: rowChars (headerFields.map String.data) := by decide
  rw [hH]
  simp [renderFile, fileChars]

/-- Every write of the handler is the header row followed by some data rows. -/
theorem save_config_written_shape (body : Option PyVal) (canOpen : Bool) :
    (save_config body canOpen).written = none ∨
    ∃ rows, (save_config body canOpen).written = some (renderFile (headerFields :: rows)) := by
  cases body with
  | none => left; rfl
  | some data =>
    cases canOpen with
    | false => left; rfl
    | true =>
      cases hit : pyIterate data with
      | error e =>
        right
        exact ⟨[], by simp [save_config, hit]⟩
      | ok items =>
        cases he : (processItems items).2 with
        | none => right; exact ⟨(processItems items).1, by simp [save_config, hit, he]⟩
        | some e => right; exact ⟨(processItems items).1, by simp [save_config, hit, he]⟩

/-- One request preserves the header invariant of the stored file. -/
theorem step_file_hdr (st : ServerState) (body : Option PyVal) (w : Bool)
    (h : st.file = none ∨ ∃ t, st.file = some (("﻿" ++ "Panel,Parameter,Value\r\n") ++ t)) :
    (step st body w).2.file = none ∨
    ∃ t, (step st body w).2.file = some (("﻿" ++ "Panel,Parameter,Value\r\n") ++ t) := by
  unfold step
  rcases save_config_written_shape body (st.dirExists && w) with hw | ⟨rows, hw⟩
  · simp only [hw]
    exact h
  · simp only [hw]
    right
    obtain ⟨t, ht⟩ := renderFile_hdr_pfx rows
    exact ⟨t, by rw [ht]⟩

/-- A request never creates or removes the save directory. -/
theorem step_dir (st : ServerState) (body : Option PyVal) (w : Bool) :
    (step st body w).2.dirExists = st.dirExists := rfl

/-- The response of a request is a function of the body, the writability and
the directory bit alone (never of the stored file). -/
theorem step_response (st : ServerState) (body : Option PyVal) (w : Bool) :
    (step st body w).1 = (save_config body (st.dirExists && w)).response := rfl

/-- When the handler does not write, the stored file is untouched. -/
theorem step_file_of_none (st : ServerState) (body : Option PyVal) (w : Bool)
    (h : (save_config body (st.dirExists && w)).written = none) :
    (step st body w).2.file = st.file := by
  simp [step, h]

/-- When the handler writes, the stored file is exactly the written content,
independent of the previous state. -/
theorem step_file_of_some (st : ServerState) (body : Option PyVal) (w : Bool) (s : String)
    (h : (save_config body (st.dirExists && w)).written = some s) :
    (step st body w).2.file = some s := by
  simp [step, h]

/-- The handler writes exactly when the body parsed and the file opened. -/
theorem save_config_written_none_iff (body : Option PyVal) (canOpen : Bool) :
    (save_config body canOpen).written = none ↔ (body = none ∨ canOpen = false) := by
  cases body with
  | none => simp [save_config]
  | some data =>
    cases canOpen with
    | false => simp [save_config]
    | true =>
      simp only [reduceCtorEq, or_self, iff_false]
      cases hit : pyIterate data with
      | error e => simp [save_config, hit]
      | ok items =>
        cases he : (processItems items).2 with
        | none => simp [save_config, hit, he]
        | some e => simp [save_config, hit, he]

/-- Written content of the handler for an array body and an open file: the
header plus the processed rows, whether or not an exception stopped the
loop. -/
theorem save_config_pyList_written (items : List PyVal) :
    (save_config (some (.pyList items)) true).written =
      some (renderFile (headerFields :: (processItems items).1)) := by
  cases he : (processItems items).2 with
  | none => simp [save_config, pyIterate, he]
  | some e => simp [save_config, pyIterate, he]

/-- The data row of a well-formed item has exactly three cells. -/
theorem rowOf_shape (it : PyVal) (h : itemWellFormed it = true) :
    ∃ a b c, rowOf it = [a, b, c] := by
  cases it with
  | pyDict fs =>
    unfold itemWellFormed at h
    simp only [Bool.and_eq_true, Option.isSome_iff_exists] at h
    obtain ⟨⟨⟨p, hp⟩, q, hq⟩, v, hv⟩ := h
    exact ⟨pyFieldStr p, pyFieldStr q, pyFieldStr v,
      by simp [rowOf, tripleOf, pyGetItem, hp, hq, hv]⟩
  | pyStr s => simp [itemWellFormed] at h
  | pyInt n => simp [itemWellFormed] at h
  | pyBool b => simp [itemWellFormed] at h
  | pyNone => simp [itemWellFormed] at h
  | pyList xs => simp [itemWellFormed] at h

theorem escQChars_mem (f : List Char) (c : Char) (h : c ∈ escQChars f) :
    c ∈ f ∨ c = '\"' := by
  induction f with
  | nil => simp [escQChars] at h
  | cons a f2 ih =>
    by_cases ha : a = '\"'
    · subst ha
      have h2 : c = '\"' ∨ c ∈ '\"' :: escQChars f2 := by
        simpa [escQChars] using h
      rcases h2 with rfl | h2
      · exact Or.inr rfl
      · rcases List.mem_cons.mp h2 with rfl | h3
        · exact Or.inr rfl
        · rcases ih h3 with h4 | h4
          · exact Or.inl (List.mem_cons_of_mem _ h4)
          · exact Or.inr h4
    · simp only [escQChars, if_neg ha, List.mem_cons] at h
      rcases h with rfl | h
      · exact Or.inl (by simp)
      · rcases ih h with h2 | h2
        · exact Or.inl (List.mem_cons_of_mem _ h2)
        · exact Or.inr h2

theorem fieldChars_mem (f : List Char) (c : Char) (h : c ∈ fieldChars f) :
    c ∈ f ∨ c = '\"' := by
  by_cases hq : f.any csvSpecial = true
  · have hfc : fieldChars f = '\"' :: (escQChars f ++ ['\"']) := by simp [fieldChars, hq]
    rw [hfc] at h
    rcases List.mem_cons.mp h with rfl | h2
    · exact Or.inr rfl
    · rcases List.mem_append.mp h2 with h3 | h3
      · exact escQChars_mem f c h3
      · exact Or.inr (List.mem_singleton.mp h3)
  · have hq2 : f.any csvSpecial = false := by simpa using hq
    have hfc : fieldChars f = f := by simp [fieldChars, hq2]
    rw [hfc] at h
    exact Or.inl h

theorem joinFields_mem (r : List (List Char)) (c : Char) (h : c ∈ joinFields r) :
    (∃ f ∈ r, c ∈ f) ∨ c = '\"' ∨ c = ',' := by
  induction r with
  | nil => simp [joinFields] at h
  | cons f fs ih =>
    cases fs with
    | nil =>
      have hj : joinFields [f] = fieldChars f := rfl
      rw [hj] at h
      rcases fieldChars_mem f c h with h2 | h2
      · exact Or.inl ⟨f, by simp, h2⟩
      · exact Or.inr (Or.inl h2)
    | cons f2 fs2 =>
      have hj : joinFields (f :: f2 :: fs2) = fieldChars f ++ ',' :: joinFields (f2 :: fs2) := rfl
      rw [hj] at h
      rcases List.mem_append.mp h with h2 | h2
      · rcases fieldChars_mem f c h2 with h3 | h3
        · exact Or.inl ⟨f, by simp, h3⟩
        · exact Or.inr (Or.inl h3)
      · rcases List.mem_cons.mp h2 with rfl | h3
        · exact Or.inr (Or.inr rfl)
        · rcases ih h3 with ⟨g, hg, hcg⟩ | h4
          · exact Or.inl ⟨g, List.mem_cons_of_mem _ hg, hcg⟩
          · exact Or.inr h4

/-- Rows whose cells contain no line breaks render to a body without line
breaks (quoting adds only quote characters and delimiters). -/
theorem rowBodyChars_no_nl (r : List (List Char))
    (h : ∀ f ∈ r, ∀ c ∈ f, ¬(c = '\n' ∨ c = '\r')) :
    ∀ c ∈ rowBodyChars r, ¬ c = '\n' := by
  intro c hc
  by_cases hsp : r = [[]]
  · have hb : rowBodyChars r = ['\"', '\"'] := by simp [rowBodyChars, hsp]
    rw [hb] at hc
    rcases List.mem_cons.mp hc with rfl | h2
    · decide
    · have h3 := List.mem_singleton.mp h2
      subst h3
      decide
  · have hb : rowBodyChars r = joinFields r := by simp [rowBodyChars, hsp]
    rw [hb] at hc
    rcases joinFields_mem r c hc with ⟨f, hf, hcf⟩ | h2 | h2
    · exact fun hn => h f hf c hcf (Or.inl hn)
    · subst h2
      decide
    · subst h2
      decide

/-- The header invariant is preserved along any sequence of requests. -/
theorem runAll_file_hdr (reqs : List (Option PyVal × Bool)) (st : ServerState)
    (h : st.file = none ∨ ∃ t, st.file = some (("﻿" ++ "Panel,Parameter,Value\r\n") ++ t)) :
    (runAll st reqs).file = none ∨
    ∃ t, (runAll st reqs).file = some (("﻿" ++ "Panel,Parameter,Value\r\n") ++ t) := by
  induction reqs generalizing st with
  | nil => exact h
  | cons rq rest ih =>
    obtain ⟨b, w⟩ := rq
    exact ih (step st b w).2 (step_file_hdr st b w h)

/-- A sample well-formed record used in concrete checks. -/
def goodItemA : PyVal :=
  .pyDict [("panel", .pyStr "A"), ("parameter", .pyStr "B"), ("value", .pyStr "C")]

/-- A sample record missing the `value` key. -/
def badItemNoValue : PyVal :=
  .pyDict [("panel", .pyStr "D"), ("parameter", .pyStr "E")]

/-! ### Claims -/

/-- C1: the claim says the written file has exactly N+1 physical lines, one
data line per object.  Counterexample: one record whose `value` is the
two-line string `x\ny` is quoted by the csv writer, so the call succeeds with
N = 1 but the file has 3 physical lines, not N+1 = 2. -/
theorem c1_lines_counterexample :
    (save_config (some (.pyList [.pyDict [("panel", .pyStr "A"), ("parameter", .pyStr "B"),
        ("value", .pyStr "x\ny")]])) true).response.code = 200 ∧
    ((save_config (some (.pyList [.pyDict [("panel", .pyStr "A"), ("parameter", .pyStr "B"),
        ("value", .pyStr "x\ny")]])) true).written.map
      (fun s => (linesOf (stripBOM s)).length)) = some 3 ∧ (3 : Nat) ≠ 1 + 1 := by
  refine ⟨by decide, by decide, by decide⟩

/-- C1 (amended): for a well-formed array of N records the written file holds
exactly N+1 csv records — the header first, then one record per input object
in submitted order, with no sorting and no deduplication — and, provided no
cell text contains a line-break character, exactly N+1 physical lines with
the data line of object i at line i+1. -/
theorem c1_rows_and_lines (items : List PyVal)
    (hwf : ∀ it ∈ items, itemWellFormed it = true) :
    ∃ content, (save_config (some (.pyList items)) true).written = some content ∧
      parseCSV (stripBOM content) = headerFields :: items.map rowOf ∧
      (parseCSV (stripBOM content)).length = items.length + 1 ∧
      ((∀ it ∈ items, ∀ f ∈ rowOf it, ∀ c ∈ f.data, ¬(c = '\n' ∨ c = '\r')) →
        linesOf (stripBOM content) = "Panel,Parameter,Value" :: items.map dataLine ∧
        (linesOf (stripBOM content)).length = items.length + 1) := by
  have hw := save_config_wf items hwf
  have hne : ∀ r ∈ headerFields :: items.map rowOf, r ≠ [] := by
    intro r hr
    rcases List.mem_cons.mp hr with rfl | hr2
    · simp [headerFields]
    · obtain ⟨it, hit, rfl⟩ := List.mem_map.mp hr2
      obtain ⟨a, b, c, hshape⟩ := rowOf_shape it (hwf it hit)
      rw [hshape]
      simp
  have hparse := parseCSV_renderFile (headerFields :: items.map rowOf) hne
  refine ⟨renderFile (headerFields :: items.map rowOf), by rw [hw], hparse, ?_, ?_⟩
  · rw [hparse]
    simp
  · intro hnl
    have hbody : ∀ r ∈ headerFields :: items.map rowOf,
        ∀ c ∈ rowBodyChars (r.map String.data), ¬ c = '\n' := by
      intro r hr
      apply rowBodyChars_no_nl
      intro f hf c hc
      rcases List.mem_cons.mp hr with rfl | hr2
      · have hcells : ∀ g ∈ headerFields.map String.data, ∀ d ∈ g, ¬(d = '\n' ∨ d = '\r') := by
          decide
        exact hcells f hf c hc
      · obtain ⟨it, hit, rfl⟩ := List.mem_map.mp hr2
        obtain ⟨g, hg, rfl⟩ := List.mem_map.mp hf
        exact hnl it hit g hg c hc
    have hlines := linesOf_renderFile (headerFields :: items.map rowOf) hbody
    have hlines2 : linesOf (stripBOM (renderFile (headerFields :: items.map rowOf))) =
        "Panel,Parameter,Value" :: items.map dataLine := by
      rw [hlines]
      simp only [List.map_cons, List.map_map]
      congr 1
    refine ⟨hlines2, ?_⟩
    rw [hlines2]
    simp

/-- Witness for C1 at a concrete two-record input (a duplicated record, which
also shows duplicates are kept). -/
theorem c1_rows_and_lines_witness :
    (∀ it ∈ [goodItemA, goodItemA], itemWellFormed it = true) ∧
    (∃ content,
      (save_config (some (.pyList [goodItemA, goodItemA])) true).written = some content ∧
      parseCSV (stripBOM content) = headerFields :: [goodItemA, goodItemA].map rowOf ∧
      (parseCSV (stripBOM content)).length = [goodItemA, goodItemA].length + 1 ∧
      ((∀ it ∈ [goodItemA, goodItemA], ∀ f ∈ rowOf it, ∀ c ∈ f.data, ¬(c = '\n' ∨ c = '\r')) →
        linesOf (stripBOM content) =
          "Panel,Parameter,Value" :: [goodItemA, goodItemA].map dataLine ∧
        (linesOf (stripBOM content)).length = [goodItemA, goodItemA].length + 1)) :=
  ⟨by decide, c1_rows_and_lines [goodItemA, goodItemA] (by decide)⟩

/-- C2: the claim lists the failure causes as exactly (a) body not
deserializable as JSON, (b) an object missing one of the three keys, (c) an
I/O error.  Counterexample: the body `42` deserializes to a JSON number, has
no object missing a key and the destination is writable, yet the handler
answers 500 because the number is not iterable. -/
theorem c2_counterexample :
    (save_config (some (.pyInt 42)) true).response.code = 500 ∧
    claimedFailB (some (.pyInt 42)) true = false :=
  ⟨by decide, by decide⟩

/-- C2 (amended): every response is either the 200 success response whose
message is `Saved to ` followed by the destination path, or a 500 response
with status `error`; the 500 case holds exactly under `errorCondB`: body not
deserializable, destination unopenable, an array element that is not a dict
holding all three keys, or a body that deserializes to something other than
an array of objects (non-empty dict or string, or a non-iterable scalar). -/
theorem c2_error_characterisation (body : Option PyVal) (canOpen : Bool) :
    ((save_config body canOpen).response = ⟨200, "success", "Saved to " ++ SAVE_PATH⟩ ∨
      ((save_config body canOpen).response.code = 500 ∧
        (save_config body canOpen).response.status = "error")) ∧
    ((save_config body canOpen).response.code = 500 ↔ errorCondB body canOpen = true) :=
  ⟨save_config_dichot body canOpen, save_config_code_500 body canOpen⟩

/-- C3: the claim says a failing call never leaves only a proper prefix of
its rows in place of the prior contents.  Counterexample: with prior file
`OLD`, a body whose second record misses `value` gets an error response while
the file now holds the header plus only the first row. -/
theorem c3_counterexample :
    (step ⟨true, some "OLD"⟩ (some (.pyList [goodItemA, badItemNoValue])) true).1.code = 500 ∧
    (step ⟨true, some "OLD"⟩ (some (.pyList [goodItemA, badItemNoValue])) true).2.file =
      some ("﻿" ++ "Panel,Parameter,Value\r\n" ++ "A,B,C\r\n") ∧
    (step ⟨true, some "OLD"⟩ (some (.pyList [goodItemA, badItemNoValue])) true).2.file ≠
      some "OLD" :=
  ⟨by decide, by decide, by decide⟩

/-- C3 (amended): when the destination opens, an invocation on an array body
always replaces the file by the header row followed by the rows of the
longest well-formed prefix of the input (truncate-then-fail); the call
answers 200 exactly when every record is well formed, in which case the whole
table was written. -/
theorem c3_truncate_then_fail (items : List PyVal) (st : ServerState) (w : Bool)
    (h : (st.dirExists && w) = true) :
    (step st (some (.pyList items)) w).2.file =
      some (renderFile (headerFields :: (items.takeWhile itemWellFormed).map rowOf)) ∧
    ((step st (some (.pyList items)) w).1.code = 200 ↔
      ∀ it ∈ items, itemWellFormed it = true) := by
  constructor
  · have hw : (save_config (some (.pyList items)) (st.dirExists && w)).written =
        some (renderFile (headerFields :: (items.takeWhile itemWellFormed).map rowOf)) := by
      rw [h, save_config_pyList_written, processItems_rows]
    exact step_file_of_some st _ w _ hw
  · have hresp : (step st (some (.pyList items)) w).1 =
        (save_config (some (.pyList items)) true).response := by
      rw [step_response, h]
    rw [hresp]
    cases he : (processItems items).2 with
    | none =>
      have hall := (processItems_err_none items).mp he
      simp only [save_config, pyIterate, he]
      simpa using hall
    | some e =>
      have hnot : ¬ ∀ it ∈ items, itemWellFormed it = true := by
        intro hall
        rw [(processItems_err_none items).mpr hall] at he
        exact Option.noConfusion he
      simp [save_config, pyIterate, he, hnot]

/-- Witness for C3 (amended) at a concrete input with a well-formed first
record and a second record missing `value`. -/
theorem c3_truncate_then_fail_witness :
    ((ServerState.mk true (some "OLD")).dirExists && true) = true ∧
    ((step ⟨true, some "OLD"⟩ (some (.pyList [goodItemA, badItemNoValue])) true).2.file =
      some (renderFile (headerFields ::
        ([goodItemA, badItemNoValue].takeWhile itemWellFormed).map rowOf)) ∧
    ((step ⟨true, some "OLD"⟩ (some (.pyList [goodItemA, badItemNoValue])) true).1.code = 200 ↔
      ∀ it ∈ [goodItemA, badItemNoValue], itemWellFormed it = true)) :=
  ⟨rfl, c3_truncate_then_fail [goodItemA, badItemNoValue] ⟨true, some "OLD"⟩ true rfl⟩

/-- C4: a successful second save fully replaces the file — after two
sequential invocations whose second answers 200, the stored file equals
exactly the content a single save of the second body would write, with no
append and no merge of rows from the earlier submission. -/
theorem c4_second_save_overwrites (st : ServerState) (b1 : Option PyVal) (w1 : Bool)
    (b2 : Option PyVal) (w2 : Bool)
    (h : (step (step st b1 w1).2 b2 w2).1.code = 200) :
    (step (step st b1 w1).2 b2 w2).2.file = (save_config b2 true).written := by
  set st1 := (step st b1 w1).2 with hst1
  cases hco : (st1.dirExists && w2) with
  | false =>
    exfalso
    have h2 : (save_config b2 (st1.dirExists && w2)).response.code = 200 := by
      rw [← step_response]
      exact h
    rw [hco] at h2
    cases b2 with
    | none => simp [save_config] at h2
    | some v => simp [save_config] at h2
  | true =>
    cases hw : (save_config b2 true).written with
    | none =>
      exfalso
      rcases (save_config_written_none_iff b2 true).mp hw with hb | hfalse
      · subst hb
        have h2 : (save_config (none : Option PyVal) (st1.dirExists && w2)).response.code = 200 := by
          rw [← step_response]
          exact h
        simp [save_config] at h2
      · exact absurd hfalse (by simp)
    | some s =>
      have hw2 : (save_config b2 (st1.dirExists && w2)).written = some s := by
        rw [hco]
        exact hw
      rw [step_file_of_some st1 b2 w2 s hw2]

/-- Witness for C4: save one record, then save the empty array; the second
call succeeds and the file equals a lone save of the empty array. -/
theorem c4_second_save_overwrites_witness :
    (step (step ⟨true, none⟩ (some (.pyList [goodItemA])) true).2
      (some (.pyList [])) true).1.code = 200 ∧
    (step (step ⟨true, none⟩ (some (.pyList [goodItemA])) true).2
      (some (.pyList [])) true).2.file = (save_config (some (.pyList [])) true).written :=
  ⟨by decide, c4_second_save_overwrites ⟨true, none⟩ (some (.pyList [goodItemA])) true
    (some (.pyList [])) true (by decide)⟩

/-- C5: the destination path is `SwapDatas/InputDatas.csv`; the example input
with panel `Audio`, parameter `Volume`, value 80 writes the BOM, the header
line and the line `Audio,Volume,80` (comma-delimited), and the response is
the 200 success carrying `Saved to SwapDatas/InputDatas.csv`. -/
theorem c5_example :
    SAVE_PATH = "SwapDatas/InputDatas.csv" ∧
    save_config (some (.pyList [.pyDict [("panel", .pyStr "Audio"),
        ("parameter", .pyStr "Volume"), ("value", .pyInt 80)]])) true =
      ⟨⟨200, "success", "Saved to SwapDatas/InputDatas.csv"⟩,
        some ("﻿" ++ "Panel,Parameter,Value\r\n" ++ "Audio,Volume,80\r\n")⟩ :=
  ⟨rfl, by decide⟩

/-- C6: over every sequence of invocations from a fresh deployment, whenever
the persisted file exists its content starts with the BOM and the header row
`Panel,Parameter,Value`, and any data comes only after it. -/
theorem c6_header_invariant (d : Bool) (reqs : List (Option PyVal × Bool)) :
    (runAll ⟨d, none⟩ reqs).file = none ∨
    ∃ t, (runAll ⟨d, none⟩ reqs).file = some (("﻿" ++ "Panel,Parameter,Value\r\n") ++ t) :=
  runAll_file_hdr reqs ⟨d, none⟩ (Or.inl rfl)

/-- C7: the claim says each invocation ensures the directory exists, so a
save succeeds even when the directory is missing at request time.
Counterexample: with the directory absent, a well-formed save request answers
500, writes nothing, and leaves the directory still missing. -/
theorem c7_counterexample :
    (step ⟨false, none⟩ (some (.pyList [goodItemA])) true).1.code = 500 ∧
    (step ⟨false, none⟩ (some (.pyList [goodItemA])) true).2.dirExists = false ∧
    (step ⟨false, none⟩ (some (.pyList [goodItemA])) true).2.file = none :=
  ⟨by decide, by decide, by decide⟩

/-- C7 (amended): the save folder is created, idempotently, by the
module-level startup code (lines 14-15), not by the handler: startup makes
the directory exist and is idempotent; an invocation never changes directory
existence and, when the directory is missing, writes nothing and answers 500
for any parseable body; after startup, a well-formed save with a writable
destination succeeds. -/
theorem c7_startup_dir (st st2 : ServerState) (body : Option PyVal) (w : Bool)
    (items : List PyVal) (hwf : ∀ it ∈ items, itemWellFormed it = true) :
    (startup st).dirExists = true ∧
    startup (startup st) = startup st ∧
    (step st2 body w).2.dirExists = st2.dirExists ∧
    (st2.dirExists = false → (step st2 body w).2.file = st2.file ∧
      (body.isSome → (step st2 body w).1.code = 500)) ∧
    (step (startup st) (some (.pyList items)) true).1.code = 200 := by
  refine ⟨rfl, rfl, rfl, ?_, ?_⟩
  · intro hd
    constructor
    · apply step_file_of_none
      apply (save_config_written_none_iff _ _).mpr
      right
      rw [hd]
      simp
    · intro hb
      obtain ⟨v, rfl⟩ := Option.isSome_iff_exists.mp hb
      rw [step_response, hd]
      simp [save_config]
  · rw [step_response]
    have hco : ((startup st).dirExists && true) = true := rfl
    rw [hco, save_config_wf items hwf]

/-- Witness for C7 (amended) at concrete states and a one-record body. -/
theorem c7_startup_dir_witness :
    (∀ it ∈ [goodItemA], itemWellFormed it = true) ∧
    ((startup ⟨false, none⟩).dirExists = true ∧
     startup (startup ⟨false, none⟩) = startup ⟨false, none⟩ ∧
     (step ⟨false, some "F"⟩ none false).2.dirExists =
       (ServerState.mk false (some "F")).dirExists ∧
     ((ServerState.mk false (some "F")).dirExists = false →
       (step ⟨false, some "F"⟩ none false).2.file = (ServerState.mk false (some "F")).file ∧
       ((none : Option PyVal).isSome → (step ⟨false, some "F"⟩ none false).1.code = 500)) ∧
     (step (startup ⟨false, none⟩) (some (.pyList [goodItemA])) true).1.code = 200) :=
  ⟨by decide, c7_startup_dir ⟨false, none⟩ ⟨false, some "F"⟩ none false [goodItemA] (by decide)⟩

/-- C8: saving the empty JSON array succeeds with the path in the message
and produces a file holding only the BOM and the header row. -/
theorem c8_empty_array :
    save_config (some (.pyList [])) true =
      ⟨⟨200, "success", "Saved to SwapDatas/InputDatas.csv"⟩,
        some ("﻿" ++ "Panel,Parameter,Value\r\n")⟩ := by decide

/-- C9: the claim says byte-identical bodies (same writability) always yield
identical resulting file contents.  Counterexample: an unparseable body makes
the handler write nothing, so two servers with different prior files end with
different contents although the responses agree. -/
theorem c9_counterexample :
    (step ⟨true, some "X"⟩ none true).1 = (step ⟨true, some "Y"⟩ none true).1 ∧
    (step ⟨true, some "X"⟩ none true).2.file ≠ (step ⟨true, some "Y"⟩ none true).2.file :=
  ⟨by decide, by decide⟩

/-- C9 (amended): with equal directory existence, the response depends only
on the body and the writability; when the body parses and the destination
opens, the resulting file contents also depend only on the body; otherwise
the handler writes nothing and the file keeps its prior, state-dependent,
contents. -/
theorem c9_determinism (body : Option PyVal) (w : Bool) (st1 st2 : ServerState)
    (hd : st1.dirExists = st2.dirExists) :
    (step st1 body w).1 = (step st2 body w).1 ∧
    ((body.isSome ∧ (st1.dirExists && w) = true) →
      (step st1 body w).2.file = (step st2 body w).2.file) ∧
    ((body = none ∨ (st1.dirExists && w) = false) →
      (step st1 body w).2.file = st1.file) := by
  refine ⟨?_, ?_, ?_⟩
  · rw [step_response, step_response, hd]
  · rintro ⟨hb, hco⟩
    obtain ⟨v, rfl⟩ := Option.isSome_iff_exists.mp hb
    have hco2 : (st2.dirExists && w) = true := by
      rw [← hd]
      exact hco
    cases hw : (save_config (some v) true).written with
    | none =>
      rcases (save_config_written_none_iff (some v) true).mp hw with h1 | h2
      · exact absurd h1 (by simp)
      · exact absurd h2 (by simp)
    | some s =>
      have h1 : (save_config (some v) (st1.dirExists && w)).written = some s := by
        rw [hco]
        exact hw
      have h2 : (save_config (some v) (st2.dirExists && w)).written = some s := by
        rw [hco2]
        exact hw
      rw [step_file_of_some st1 _ w s h1, step_file_of_some st2 _ w s h2]
  · intro hcase
    apply step_file_of_none
    exact (save_config_written_none_iff _ _).mpr hcase

/-- Witness for C9 (amended): two servers with the directory present and
different prior files, an empty-array body and a writable destination. -/
theorem c9_determinism_witness :
    (ServerState.mk true (some "X")).dirExists = (ServerState.mk true (some "Y")).dirExists ∧
    ((step ⟨true, some "X"⟩ (some (.pyList [])) true).1 =
      (step ⟨true, some "Y"⟩ (some (.pyList [])) true).1 ∧
    (((some (.pyList []) : Option PyVal).isSome ∧
        ((ServerState.mk true (some "X")).dirExists && true) = true) →
      (step ⟨true, some "X"⟩ (some (.pyList [])) true).2.file =
        (step ⟨true, some "Y"⟩ (some (.pyList [])) true).2.file) ∧
    (((some (.pyList []) : Option PyVal) = none ∨
        ((ServerState.mk true (some "X")).dirExists && true) = false) →
      (step ⟨true, some "X"⟩ (some (.pyList [])) true).2.file =
        (ServerState.mk true (some "X")).file)) :=
  ⟨rfl, c9_determinism (some (.pyList [])) true ⟨true, some "X"⟩ ⟨true, some "Y"⟩ rfl⟩

/-- A record whose cells hold a comma, a quote, and a newline. -/
def trickyItem : PyVal :=
  .pyDict [("panel", .pyStr "a,b"), ("parameter", .pyStr "q\"r"), ("value", .pyStr "x\ny")]

/-- C10: csv escaping round-trip — for every well-formed array, including
cells containing commas, quotes or newlines, parsing the persisted file back
with the csv reader yields exactly the header record followed by one record
per input object (the textual forms of its triple) in submitted order. -/
theorem c10_round_trip (items : List PyVal)
    (hwf : ∀ it ∈ items, itemWellFormed it = true) :
    ∃ content, (save_config (some (.pyList items)) true).written = some content ∧
      parseCSV (stripBOM content) = headerFields :: items.map rowOf ∧
      (parseCSV (stripBOM content)).length = items.length + 1 := by
  have hw := save_config_wf items hwf
  have hne : ∀ r ∈ headerFields :: items.map rowOf, r ≠ [] := by
    intro r hr
    rcases List.mem_cons.mp hr with rfl | hr2
    · simp [headerFields]
    · obtain ⟨it, hit, rfl⟩ := List.mem_map.mp hr2
      obtain ⟨a, b, c, hshape⟩ := rowOf_shape it (hwf it hit)
      rw [hshape]
      simp
  have hparse := parseCSV_renderFile (headerFields :: items.map rowOf) hne
  refine ⟨renderFile (headerFields :: items.map rowOf), by rw [hw], hparse, ?_⟩
  rw [hparse]
  simp

/-- Witness for C10 at a record containing a comma, a quote and a newline. -/
theorem c10_round_trip_witness :
    (∀ it ∈ [trickyItem], itemWellFormed it = true) ∧
    (∃ content, (save_config (some (.pyList [trickyItem])) true).written = some content ∧
      parseCSV (stripBOM content) = headerFields :: [trickyItem].map rowOf ∧
      (parseCSV (stripBOM content)).length = [trickyItem].length + 1) :=
  ⟨by decide, c10_round_trip [trickyItem] (by decide)⟩
